import Mathlib

/-!
Verification development for the NanoClaw container runner
(`src/container-runner.ts`).  Host paths are modelled as lists of path
components; captured process text is modelled as lists of characters.
Functions are translated from the TypeScript source; the few places where
the source is not part of this repository snapshot (the configuration
constants and the mount-security validator) are modelled from the
specification and marked as such in their doc comments.
-/

namespace NanoClaw

/-! ## Character-list utilities (models of the JavaScript string methods) -/

/-- Split a character list at a separator character; models the JavaScript
`split` with a one-character separator (so `split` of the empty text yields
one empty piece, and a trailing separator yields a trailing empty piece). -/
def splitOnChars (sep : Char) : List Char → List (List Char)
  | [] => [[]]
  | c :: tl =>
    match splitOnChars sep tl with
    | [] => [[]]
    | h :: t => if c = sep then [] :: h :: t else (c :: h) :: t

/-- The JavaScript whitespace test used by `String.prototype.trim`
(restricted to the common whitespace characters). -/
def isWsChar (c : Char) : Bool :=
  c = ' ' || c = '\t' || c = '\n' || c = '\r' || c = '\x0b' || c = '\x0c'

/-- Model of `String.prototype.trim`: drop whitespace from both ends. -/
def trimChars (l : List Char) : List Char :=
  ((l.dropWhile isWsChar).reverse.dropWhile isWsChar).reverse

/-- Model of `String.prototype.indexOf`: index of the first occurrence of
`pat`, or `none` when there is no occurrence (the source compares the
JavaScript result against -1). -/
def firstIdx (pat : List Char) : List Char → Option Nat
  | [] => if pat = [] then some 0 else none
  | c :: tl =>
    if pat.isPrefixOf (c :: tl) then some 0
    else Option.map (fun n => n + 1) (firstIdx pat tl)

/-- Model of `s.slice(-n)`: the last `n` characters of `s`. -/
def sliceLast (n : Nat) (l : List Char) : List Char :=
  l.drop (l.length - n)

/-! ## Path model

A host path is a list of components.  `splitPathSegs` models how a single
string segment handed to Node `path.join` is decomposed at separators, and
`normalizeComponents` models the dot and dot-dot normalization that
`path.join` performs on the concatenated segments. -/

/-- Split one path segment string at the separator, dropping empty parts,
as Node `path.join` does when it concatenates segments. -/
def splitPathSegs (s : String) : List String :=
  ((splitOnChars '/' s.data).filter (fun c => c ≠ [])).map (fun c => String.mk c)

/-- One step of component normalization: `.` is dropped, `..` removes the
previous component, anything else is appended. -/
def normStep (acc : List String) (c : String) : List String :=
  if c = "." then acc
  else if c = ".." then acc.dropLast
  else acc ++ [c]

/-- Resolve `.` and `..` components, as Node path normalization does for
paths that stay below their root. -/
def normalizeComponents (l : List String) : List String :=
  l.foldl normStep []

/-- Model of Node `path.join` over a list of segment strings, producing a
component list. -/
def pathJoin (segs : List String) : List String :=
  normalizeComponents (segs.flatMap splitPathSegs)

/-- Render a component list back into a single path string (used when the
mount list is embedded into the launcher arguments). -/
def pathToString (p : List String) : String :=
  String.intercalate "/" p

/-- `p` equals `q`, or is an ancestor of `q`, or is a descendant of `q`,
in the component-list model (ancestor = strict prefix; the `equal` case is
kept separate for readability, the prefix relations are non-strict). -/
def pathRelated (p q : List String) : Prop :=
  p = q ∨ p <+: q ∨ q <+: p

/-- A folder name that is a single clean path component: splitting it at
the separator returns it unchanged, and it is not a dot component. -/
def cleanSeg (f : String) : Prop :=
  splitPathSegs f = [f] ∧ f ≠ "." ∧ f ≠ ".."

instance (f : String) : Decidable (cleanSeg f) := by
  unfold cleanSeg; infer_instance

/-- Modelled from the spec: `DATA_DIR` is imported from `src/config.ts`,
which is not part of this repository snapshot; the registration script in
the repository uses `./data`, which normalizes to this component list. -/
def DATA_DIR : List String := ["data"]

/-- Modelled from the spec: `GROUPS_DIR` is imported from `src/config.ts`,
which is not part of this repository snapshot; the registration script in
the repository uses `./groups`. -/
def GROUPS_DIR : List String := ["groups"]

/-! ## Data model (structures from `container-runner.ts` and its imports) -/

/-- A host-to-sandbox directory mapping (`VolumeMount` in the source). -/
structure VolumeMount where
  hostPath : List String
  containerPath : String
  readonly : Bool
deriving DecidableEq, Repr

/-- One operator-maintained allowlist record for tenant-requested extra
mounts (`AllowlistEntry` in the spec; the file itself lives outside the
repository snapshot). -/
structure AllowEntry where
  path : List String
  readOnly : Bool
  scope : Option String
deriving DecidableEq, Repr

/-- The per-tenant configuration referenced as `group.containerConfig`. -/
structure ContainerConfig where
  timeout : Option Nat
  additionalMounts : Option (List VolumeMount)
deriving DecidableEq, Repr

/-- The tenant record (`RegisteredGroup` from `src/types.ts`, restricted
to the fields the container runner reads). -/
structure RegisteredGroup where
  name : String
  folder : String
  containerConfig : Option ContainerConfig
deriving DecidableEq, Repr

/-- The job input streamed to the sandbox (`ContainerInput`). -/
structure ContainerInput where
  prompt : String
  sessionId : Option String
  groupFolder : String
  chatJid : String
  isMain : Bool
  currentTime : String
  isScheduledTask : Option Bool
deriving DecidableEq, Repr

/-- Result status of a run. -/
inductive JobStatus where
  | success
  | error
deriving DecidableEq, Repr

/-- The structured result recovered from the sandbox (`ContainerOutput`). -/
structure ContainerOutput where
  status : JobStatus
  result : Option String
  newSessionId : Option String
  error : Option String
deriving DecidableEq, Repr

/-! ## Mount planning (`buildVolumeMounts`, `buildContainerArgs`) -/

/-- Modelled from the spec: `validateAdditionalMounts` lives in
`src/mount-security.ts`, which is not part of this repository snapshot.
Per spec section 4.1 it returns the subset of the requested mappings that
pass policy: a request under the sensitive-path set is dropped
unconditionally; otherwise the request must match an allowlist entry by
exact path or ancestor relationship, with tenant scoping respected, and a
read-only entry downgrades the mapping to read-only. -/
def validateAdditionalMounts (allowlist : List AllowEntry)
    (sensitivePaths : List (List String)) (requested : List VolumeMount)
    (groupName : String) (_isMain : Bool) : List VolumeMount :=
  requested.filterMap (fun r =>
    if sensitivePaths.any (fun s => s.isPrefixOf r.hostPath) then none
    else
      match allowlist.find? (fun e =>
        e.path.isPrefixOf r.hostPath &&
        (match e.scope with
         | none => true
         | some n => n = groupName)) with
      | some e => some ⟨r.hostPath, r.containerPath, r.readonly || e.readOnly⟩
      | none => none)

/-- The per-tenant Claude session-state directory created and mounted by
`buildVolumeMounts` (`path.join(DATA_DIR, 'sessions', group.folder, '.claude')`). -/
def groupSessionsDir (folder : String) : List String :=
  pathJoin (DATA_DIR ++ ["sessions", folder, ".claude"])

/-- The per-tenant IPC directory created and mounted by `buildVolumeMounts`
(`path.join(DATA_DIR, 'ipc', group.folder)`). -/
def groupIpcDir (folder : String) : List String :=
  pathJoin (DATA_DIR ++ ["ipc", folder])

/-- The tail of the mount list: the validated tenant-requested additional
mounts, when the tenant configuration requests any
(`group.containerConfig?.additionalMounts` in the source). -/
def extraMounts (allowlist : List AllowEntry)
    (sensitivePaths : List (List String)) (group : RegisteredGroup)
    (isMain : Bool) : List VolumeMount :=
  match group.containerConfig with
  | some cfg =>
    match cfg.additionalMounts with
    | some reqs =>
      validateAdditionalMounts allowlist sensitivePaths reqs group.name isMain
    | none => []
  | none => []

/-- Translation of `buildVolumeMounts`.  Beyond the source arguments it
takes the allowlist and sensitive-path set consulted by the validator, the
host project root (`process.cwd()`), and whether the shared global
directory exists on disk. -/
def buildVolumeMounts (allowlist : List AllowEntry)
    (sensitivePaths : List (List String)) (projectRoot : List String)
    (globalDirExists : Bool) (group : RegisteredGroup) (isMain : Bool) :
    List VolumeMount :=
  (if isMain then
    [⟨projectRoot, "/workspace/project", false⟩,
     ⟨pathJoin (GROUPS_DIR ++ [group.folder]), "/workspace/group", false⟩]
  else
    ⟨pathJoin (GROUPS_DIR ++ [group.folder]), "/workspace/group", false⟩ ::
    (if globalDirExists then
      [⟨pathJoin (GROUPS_DIR ++ ["global"]), "/workspace/global", true⟩]
     else []))
  ++ [⟨groupSessionsDir group.folder, "/home/node/.claude", false⟩,
      ⟨groupIpcDir group.folder, "/workspace/ipc", false⟩,
      ⟨pathJoin (DATA_DIR ++ ["env"]), "/workspace/env-dir", true⟩]
  ++ extraMounts allowlist sensitivePaths group isMain

/-- Translation of `buildContainerArgs` (the image identifier is the
`CONTAINER_IMAGE` configuration constant, taken as a parameter). -/
def buildContainerArgs (image : String) (mounts : List VolumeMount) :
    List String :=
  (["run", "-i", "--rm"] ++
    mounts.flatMap (fun m =>
      if m.readonly then
        ["--mount",
         "type=bind,source=" ++ pathToString m.hostPath ++ ",target=" ++
           m.containerPath ++ ",readonly"]
      else
        ["-v", pathToString m.hostPath ++ ":" ++ m.containerPath])) ++ [image]

/-! ## Output collection (`collectStream`) -/

/-- State of one captured output channel: the retained text and the
truncation flag. -/
structure StreamState where
  text : List Char
  truncated : Bool
deriving DecidableEq, Repr

/-- One step of `collectStream`: process one decoded chunk under the size
cap, exactly as the source does for both stdout and stderr (once a channel
is truncated further chunks are drained but not retained). -/
def collectStep (maxSize : Nat) (st : StreamState) (chunk : List Char) :
    StreamState :=
  if st.truncated then st
  else
    let remaining := maxSize - st.text.length
    if chunk.length > remaining then
      ⟨st.text ++ chunk.take remaining, true⟩
    else
      ⟨st.text ++ chunk, st.truncated⟩

/-- Translation of `collectStream`: fold the delivered chunk sequence of
one channel through `collectStep`, starting from an empty untruncated
channel (`CONTAINER_MAX_OUTPUT_SIZE` is the `maxSize` parameter). -/
def collectStream (maxSize : Nat) (chunks : List (List Char)) : StreamState :=
  chunks.foldl (collectStep maxSize) ⟨[], false⟩

/-! ## Output extraction -/

/-- The start sentinel `OUTPUT_START_MARKER`. -/
def OUTPUT_START_MARKER : List Char := "---NANOCLAW_OUTPUT_START---".data

/-- The end sentinel `OUTPUT_END_MARKER`. -/
def OUTPUT_END_MARKER : List Char := "---NANOCLAW_OUTPUT_END---".data

/-- The fallback candidate: `stdout.trim().split('\n')[lines.length - 1]`
from the source (the last piece of the newline-split trimmed output). -/
def lastLineOf (l : List Char) : List Char :=
  (splitOnChars '\n' (trimChars l)).getLastD []

/-- Translation of the candidate-selection step of `runContainerAgent`:
the text strictly between the first occurrences of the two sentinels,
trimmed, when both occur in that order; otherwise the trailing line of the
trimmed output. -/
def extractCandidate (stdout : List Char) : List Char :=
  match firstIdx OUTPUT_START_MARKER stdout, firstIdx OUTPUT_END_MARKER stdout with
  | some si, some ei =>
    if si < ei then
      trimChars ((stdout.drop (si + OUTPUT_START_MARKER.length)).take
        (ei - (si + OUTPUT_START_MARKER.length)))
    else lastLineOf stdout
  | some _, none => lastLineOf stdout
  | none, _ => lastLineOf stdout

/-- A line is blank when all of its characters are whitespace (an empty
line is blank). -/
def blankLine (l : List Char) : Bool := l.all isWsChar

/-- Follows the words of the spec: the last non-blank line of the trimmed
output, or the empty candidate when every line is blank. -/
def lastNonBlankLineOf (l : List Char) : List Char :=
  ((splitOnChars '\n' (trimChars l)).reverse.find?
    (fun line => !blankLine line)).getD []

/-- Follows the words of the spec (claim C4): if both sentinels are found
and the end occurs after the start, the candidate is the substring
strictly between them, trimmed; otherwise it is the last non-blank line of
the trimmed output. -/
def extractCandidateSpec (stdout : List Char) : List Char :=
  match firstIdx OUTPUT_START_MARKER stdout, firstIdx OUTPUT_END_MARKER stdout with
  | some si, some ei =>
    if si < ei then
      trimChars ((stdout.drop (si + OUTPUT_START_MARKER.length)).take
        (ei - (si + OUTPUT_START_MARKER.length)))
    else lastNonBlankLineOf stdout
  | some _, none => lastNonBlankLineOf stdout
  | none, _ => lastNonBlankLineOf stdout

/-! ## The run itself (`runContainerAgent`)

The process interaction is embedded through an explicit environment
record: what the spawned process did (chunks delivered on each channel,
exit code, whether the timeout timer fired first), the configuration
constants read from `config.ts` (not part of this snapshot), and the JSON
parser (`JSON.parse` plus the `ContainerOutput` cast), abstracted as a
function returning either the parsed result or the exception message. -/

structure ExecEnv where
  containerTimeout : Nat
  maxOutputSize : Nat
  timedOut : Bool
  exitCode : Int
  stdoutChunks : List (List Char)
  stderrChunks : List (List Char)
  parseJob : List Char → Except String ContainerOutput

/-- Observable side effects of one invocation, as recorded by the model:
whether the process was killed by the timeout, how many per-run log files
(RunRecords) were written, which candidate (if any) was handed to the
parse step, and the stdout tail logged when parsing fails. -/
structure RunEffects where
  killed : Bool
  logWrites : Nat
  parsedCandidate : Option (List Char)
  loggedParseTail : Option (List Char)
deriving Repr

/-- JavaScript `a || d` on an optional numeric `a`: `0`, like `undefined`,
falls back to the default. -/
def jsOrNat : Option Nat → Nat → Nat
  | some t, d => if t = 0 then d else t
  | none, d => d

/-- The configured timeout of one invocation:
`group.containerConfig?.timeout || CONTAINER_TIMEOUT`. -/
def configuredTimeout (group : RegisteredGroup) (env : ExecEnv) : Nat :=
  jsOrNat (group.containerConfig.bind (fun c => c.timeout)) env.containerTimeout

/-- Translation of the result-producing tail of `runContainerAgent`: the
two captured channels, the timeout branch (which returns before the log
file is written and before any parsing), the per-run log write, the
non-zero-exit branch, and the extract-and-parse step with its catch
handler.  Returns the `ContainerOutput` handed to the caller together with
the observable effects. -/
def runContainerAgent (group : RegisteredGroup) (_input : ContainerInput)
    (env : ExecEnv) : ContainerOutput × RunEffects :=
  let timeoutMs := configuredTimeout group env
  let stdoutSt := collectStream env.maxOutputSize env.stdoutChunks
  let stderrSt := collectStream env.maxOutputSize env.stderrChunks
  if env.timedOut then
    (⟨JobStatus.error, none, none,
      some ("Container timed out after " ++ toString timeoutMs ++ "ms")⟩,
     ⟨true, 0, none, none⟩)
  else if env.exitCode ≠ 0 then
    (⟨JobStatus.error, none, none,
      some ("Container exited with code " ++ toString env.exitCode ++ ": " ++
        String.mk (sliceLast 200 stderrSt.text))⟩,
     ⟨false, 1, none, none⟩)
  else
    let candidate := extractCandidate stdoutSt.text
    match env.parseJob candidate with
    | Except.ok out => (out, ⟨false, 1, some candidate, none⟩)
    | Except.error msg =>
      (⟨JobStatus.error, none, none,
        some ("Failed to parse container output: " ++ msg)⟩,
       ⟨false, 1, some candidate, some (sliceLast 500 stdoutSt.text)⟩)

/-! ## Snapshot writers -/

/-- One scheduled task as passed to `writeTasksSnapshot`. -/
structure TaskRec where
  id : String
  groupFolder : String
  prompt : String
  schedule_type : String
  schedule_value : String
  status : String
  next_run : Option String
deriving DecidableEq, Repr

/-- Translation of `writeTasksSnapshot`: the filtered task list written to
the tenant IPC directory (`current_tasks.json`). -/
def writeTasksSnapshot (groupFolder : String) (isMain : Bool)
    (tasks : List TaskRec) : List TaskRec :=
  if isMain then tasks
  else tasks.filter (fun t => t.groupFolder = groupFolder)

/-- One discoverable chat identity as passed to `writeGroupsSnapshot`. -/
structure AvailableGroup where
  jid : String
  name : String
  lastActivity : String
  isRegistered : Bool
deriving DecidableEq, Repr

/-- The object serialized into `available_groups.json`. -/
structure GroupsSnapshotContent where
  groups : List AvailableGroup
  lastSync : String
deriving DecidableEq, Repr

/-- Translation of `writeGroupsSnapshot`: the content written to the
tenant IPC directory.  The source function also receives a
`registeredJids` set, and the clock reading `now` stands for
`new Date().toISOString()`. -/
def writeGroupsSnapshot (_groupFolder : String) (isMain : Bool)
    (groups : List AvailableGroup) (_registeredJids : List String)
    (now : String) : GroupsSnapshotContent :=
  ⟨if isMain then groups else [], now⟩

/-! ## Helper lemmas about the path model -/

/-- Two component lists with different heads are unrelated. -/
lemma not_pathRelated_of_head_ne {a b : String} {p q : List String}
    (h : a ≠ b) : ¬ pathRelated (a :: p) (b :: q) := by
  rintro (heq | hpre | hpre)
  · injection heq with h1 _
    exact h h1
  · exact h (List.cons_prefix_cons.mp hpre).1
  · exact h ((List.cons_prefix_cons.mp hpre).1).symm

/-- Relatedness is preserved and reflected when a common leading run of
components is removed. -/
lemma pathRelated_append_left (x p q : List String) :
    pathRelated (x ++ p) (x ++ q) ↔ pathRelated p q := by
  unfold pathRelated
  constructor
  · rintro (heq | hpre | hpre)
    · exact Or.inl (List.append_cancel_left heq)
    · exact Or.inr (Or.inl ((List.prefix_append_right_inj x).mp hpre))
    · exact Or.inr (Or.inr ((List.prefix_append_right_inj x).mp hpre))
  · rintro (heq | hpre | hpre)
    · exact Or.inl (by rw [heq])
    · exact Or.inr (Or.inl ((List.prefix_append_right_inj x).mpr hpre))
    · exact Or.inr (Or.inr ((List.prefix_append_right_inj x).mpr hpre))

/-- Two paths agreeing on a leading run and then differing are unrelated. -/
lemma not_rel_diff_at (x : List String) (a b : String) (p q : List String)
    (h : a ≠ b) : ¬ pathRelated (x ++ a :: p) (x ++ b :: q) := fun hr =>
  not_pathRelated_of_head_ne h ((pathRelated_append_left x _ _).mp hr)

/-- A path extending an entry that is unrelated to a target is itself
unrelated to the target. -/
lemma not_rel_of_entry_unrel {t h e : List String} (hpre : e <+: h)
    (hrel : ¬ pathRelated e t) : ¬ pathRelated h t := by
  rintro (rfl | hp | hp)
  · exact hrel (Or.inr (Or.inl hpre))
  · exact hrel (Or.inr (Or.inl (hpre.trans hp)))
  · rcases List.prefix_or_prefix_of_prefix hpre hp with h1 | h1
    · exact hrel (Or.inr (Or.inl h1))
    · exact hrel (Or.inr (Or.inr h1))

/-- Normalization is the identity on component lists without dot entries. -/
lemma foldl_normStep_clean :
    ∀ (l : List String) (acc : List String),
      (∀ c ∈ l, c ≠ "." ∧ c ≠ "..") → l.foldl normStep acc = acc ++ l := by
  intro l
  induction l with
  | nil => intro acc _; simp
  | cons c tl ih =>
    intro acc h
    have hc := h c (by simp)
    have hstep : normStep acc c = acc ++ [c] := by
      simp [normStep, hc.1, hc.2]
    simp only [List.foldl_cons, hstep]
    rw [ih (acc ++ [c]) (fun d hd => h d (by simp [hd]))]
    simp

/-- `pathJoin` is the identity on a list of segments that are each a
single clean component. -/
lemma pathJoin_of_single_segs (segs : List String)
    (h : ∀ s ∈ segs, splitPathSegs s = [s] ∧ s ≠ "." ∧ s ≠ "..") :
    pathJoin segs = segs := by
  have hf : segs.flatMap splitPathSegs = segs := by
    induction segs with
    | nil => simp
    | cons s tl ih =>
      rw [List.flatMap_cons, (h s (by simp)).1,
        ih (fun d hd => h d (by simp [hd]))]
      rfl
  rw [pathJoin, hf, normalizeComponents,
    foldl_normStep_clean segs [] (fun c hc => (h c hc).2)]
  rfl

lemma groupSessionsDir_clean (f : String) (hf : cleanSeg f) :
    groupSessionsDir f = ["data", "sessions", f, ".claude"] := by
  show pathJoin ["data", "sessions", f, ".claude"] = _
  apply pathJoin_of_single_segs
  intro s hs
  simp only [List.mem_cons, List.not_mem_nil, or_false] at hs
  rcases hs with rfl | rfl | rfl | rfl
  · exact ⟨by decide, by decide, by decide⟩
  · exact ⟨by decide, by decide, by decide⟩
  · exact hf
  · exact ⟨by decide, by decide, by decide⟩

lemma groupIpcDir_clean (f : String) (hf : cleanSeg f) :
    groupIpcDir f = ["data", "ipc", f] := by
  show pathJoin ["data", "ipc", f] = _
  apply pathJoin_of_single_segs
  intro s hs
  simp only [List.mem_cons, List.not_mem_nil, or_false] at hs
  rcases hs with rfl | rfl | rfl
  · exact ⟨by decide, by decide, by decide⟩
  · exact ⟨by decide, by decide, by decide⟩
  · exact hf

lemma groupFolderMount_clean (f : String) (hf : cleanSeg f) :
    pathJoin (GROUPS_DIR ++ [f]) = ["groups", f] := by
  show pathJoin ["groups", f] = _
  apply pathJoin_of_single_segs
  intro s hs
  simp only [List.mem_cons, List.not_mem_nil, or_false] at hs
  rcases hs with rfl | rfl
  · exact ⟨by decide, by decide, by decide⟩
  · exact hf

/-- Any mapping accepted by the (spec-modelled) mount validator extends
some allowlist entry. -/
lemma mem_validateAdditionalMounts {alw : List AllowEntry}
    {sens : List (List String)} {reqs : List VolumeMount} {gname : String}
    {mn : Bool} {m : VolumeMount}
    (hm : m ∈ validateAdditionalMounts alw sens reqs gname mn) :
    ∃ e ∈ alw, e.path <+: m.hostPath := by
  simp only [validateAdditionalMounts, List.mem_filterMap] at hm
  obtain ⟨r, _, hopt⟩ := hm
  split at hopt
  · exact absurd hopt (by simp)
  · split at hopt
    case isFalse.h_1 e heq =>
      obtain rfl : VolumeMount.mk r.hostPath r.containerPath
          (r.readonly || e.readOnly) = m := Option.some.inj hopt
      refine ⟨e, List.mem_of_find?_eq_some heq, ?_⟩
      have hp := List.find?_some heq
      rw [Bool.and_eq_true] at hp
      exact List.isPrefixOf_iff_prefix.mp hp.1
    case isFalse.h_2 => exact absurd hopt (by simp)

/-- Any mapping in the extra-mounts tail extends some allowlist entry. -/
lemma mem_extraMounts {alw : List AllowEntry} {sens : List (List String)}
    {g : RegisteredGroup} {mn : Bool} {m : VolumeMount}
    (hm : m ∈ extraMounts alw sens g mn) :
    ∃ e ∈ alw, e.path <+: m.hostPath := by
  unfold extraMounts at hm
  split at hm
  · split at hm
    · exact mem_validateAdditionalMounts hm
    · simp at hm
  · simp at hm

/-- The extra-mounts tail is empty when the tenant configuration requests
no additional mounts. -/
lemma extraMounts_eq_nil {alw : List AllowEntry} {sens : List (List String)}
    {g : RegisteredGroup} {mn : Bool}
    (hcfg : g.containerConfig.bind (fun c => c.additionalMounts) = none) :
    extraMounts alw sens g mn = [] := by
  unfold extraMounts
  split
  · split
    · exfalso
      simp_all
    · rfl
  · rfl

/-! ## Helper lemmas about stream collection -/

/-- One step of collection preserves the take-a-prefix invariant: after
consuming `consumed`, the retained text is always the first `maxSize`
characters of the consumed text, and the truncation flag records whether
the consumed text has exceeded the cap. -/
lemma collectStep_take (maxSize : Nat) (consumed c : List Char) :
    collectStep maxSize
      ⟨consumed.take maxSize, decide (maxSize < consumed.length)⟩ c =
      ⟨(consumed ++ c).take maxSize,
       decide (maxSize < (consumed ++ c).length)⟩ := by
  simp only [collectStep, List.length_append]
  by_cases h : maxSize < consumed.length
  · rw [if_pos (by simpa using h)]
    have htext : consumed.take maxSize = (consumed ++ c).take maxSize := by
      rw [List.take_append_eq_append_take,
        Nat.sub_eq_zero_of_le (Nat.le_of_lt h), List.take_zero,
        List.append_nil]
    rw [htext, decide_eq_true h,
      decide_eq_true (show maxSize < consumed.length + c.length by omega)]
  · rw [if_neg (by simpa using h)]
    have hle : consumed.length ≤ maxSize := Nat.le_of_not_lt h
    have htk : consumed.take maxSize = consumed := List.take_of_length_le hle
    rw [htk]
    by_cases hc : c.length > maxSize - consumed.length
    · rw [if_pos hc, List.take_append_eq_append_take,
        List.take_of_length_le hle,
        decide_eq_true (show maxSize < consumed.length + c.length by omega)]
    · rw [if_neg hc]
      have hlen : consumed.length + c.length ≤ maxSize := by omega
      rw [List.take_of_length_le (by simpa using hlen),
        decide_eq_false (by omega : ¬ maxSize < consumed.length),
        decide_eq_false (by omega : ¬ maxSize < consumed.length + c.length)]

/-- Folding the collection step keeps the retained text equal to the
capped prefix of everything consumed so far. -/
lemma collectStream_go (maxSize : Nat) :
    ∀ (chunks : List (List Char)) (consumed : List Char),
      List.foldl (collectStep maxSize)
        ⟨consumed.take maxSize, decide (maxSize < consumed.length)⟩ chunks =
      ⟨(consumed ++ chunks.flatMap id).take maxSize,
       decide (maxSize < (consumed ++ chunks.flatMap id).length)⟩ := by
  intro chunks
  induction chunks with
  | nil => intro consumed; simp
  | cons c cs ih =>
    intro consumed
    rw [List.foldl_cons, collectStep_take maxSize consumed c,
      ih (consumed ++ c)]
    simp [List.append_assoc]

/-! ## Claim C2 -/

/-- Claim C2: for every chunk sequence delivered on a captured channel,
the retained text is exactly the capped prefix of the delivered text; in
particular, when the delivered total exceeds the configured cap the
retained length is exactly the cap and the truncation flag is set, and
when it stays within the cap the flag stays unset and the text is exact.
Both captured channels run this same collection loop. -/
theorem collectStream_cap (maxSize : Nat) (chunks : List (List Char)) :
    (collectStream maxSize chunks).text = (chunks.flatMap id).take maxSize ∧
    (collectStream maxSize chunks).truncated =
      decide (maxSize < (chunks.flatMap id).length) ∧
    (maxSize < (chunks.flatMap id).length →
      (collectStream maxSize chunks).text.length = maxSize ∧
      (collectStream maxSize chunks).truncated = true) ∧
    ((chunks.flatMap id).length ≤ maxSize →
      (collectStream maxSize chunks).text = chunks.flatMap id ∧
      (collectStream maxSize chunks).truncated = false) := by
  have h0 : (⟨[], false⟩ : StreamState) =
      ⟨List.take maxSize ([] : List Char),
       decide (maxSize < List.length ([] : List Char))⟩ := by simp
  have h : collectStream maxSize chunks =
      ⟨(chunks.flatMap id).take maxSize,
       decide (maxSize < (chunks.flatMap id).length)⟩ := by
    rw [collectStream, h0, collectStream_go maxSize chunks []]
    simp
  rw [h]
  refine ⟨rfl, rfl, fun hgt => ⟨?_, ?_⟩, fun hle => ⟨?_, ?_⟩⟩
  · simp only [List.length_take]
    omega
  · exact decide_eq_true hgt
  · exact List.take_of_length_le hle
  · exact decide_eq_false (by omega)

/-- Witness for claim C2, applying the theorem once to a delivery that
overflows a cap of 3 and once to one that stays within it. -/
theorem collectStream_cap_witness :
    ((collectStream 3 [['a', 'b'], ['c', 'd']]).text.length = 3 ∧
     (collectStream 3 [['a', 'b'], ['c', 'd']]).truncated = true) ∧
    ((collectStream 3 [['a', 'b']]).text = ['a', 'b'] ∧
     (collectStream 3 [['a', 'b']]).truncated = false) :=
  ⟨(collectStream_cap 3 [['a', 'b'], ['c', 'd']]).2.2.1 (by decide),
   (collectStream_cap 3 [['a', 'b']]).2.2.2 (by decide)⟩

/-! ## Claims C6, C7, C10 -/

/-- Claim C6: the privileged tenant's task snapshot is exactly the full
task list; a non-privileged tenant's snapshot is exactly the sublist of
tasks of its own folder, and no task of another folder appears in it. -/
theorem writeTasksSnapshot_filtering (f : String) (tasks : List TaskRec)
    (t : TaskRec) :
    writeTasksSnapshot f true tasks = tasks ∧
    writeTasksSnapshot f false tasks =
      tasks.filter (fun x => x.groupFolder = f) ∧
    (t ∈ writeTasksSnapshot f false tasks → t.groupFolder = f) := by
  refine ⟨rfl, rfl, fun ht => ?_⟩
  simp only [writeTasksSnapshot, Bool.false_eq_true, if_false,
    List.mem_filter, decide_eq_true_eq] at ht
  exact ht.2

/-- Witness for claim C6: a task of folder "a" found in the snapshot for
tenant "a" indeed belongs to folder "a". -/
theorem writeTasksSnapshot_filtering_witness :
    (TaskRec.mk "1" "a" "p" "cron" "v" "active" none).groupFolder = "a" :=
  (writeTasksSnapshot_filtering "a"
    [TaskRec.mk "1" "a" "p" "cron" "v" "active" none,
     TaskRec.mk "2" "b" "q" "cron" "v" "active" none]
    (TaskRec.mk "1" "a" "p" "cron" "v" "active" none)).2.2 (by decide)

/-- Claim C7: the privileged tenant's groups snapshot carries the full
input list; every non-privileged tenant's snapshot carries the empty
list, whatever the input list holds. -/
theorem writeGroupsSnapshot_privileged (f : String)
    (gs : List AvailableGroup) (r : List String) (now : String) :
    (writeGroupsSnapshot f true gs r now).groups = gs ∧
    (writeGroupsSnapshot f false gs r now).groups = [] :=
  ⟨rfl, rfl⟩

/-- Claim C10: the `registeredJids` argument of `writeGroupsSnapshot` has
no effect on the written snapshot content — two calls agreeing on folder,
privilege flag, group list and clock reading produce identical content for
arbitrarily different `registeredJids` sets. -/
theorem writeGroupsSnapshot_noninterference (f : String) (mn : Bool)
    (gs : List AvailableGroup) (r1 r2 : List String) (now : String) :
    writeGroupsSnapshot f mn gs r1 now = writeGroupsSnapshot f mn gs r2 now :=
  rfl

/-! ## Helper lemmas about splitting and trimming -/

/-- Splitting always yields at least one piece. -/
lemma splitOnChars_ne_nil (sep : Char) : ∀ l, splitOnChars sep l ≠ [] := by
  intro l
  induction l with
  | nil => simp [splitOnChars]
  | cons c tl ih =>
    simp only [splitOnChars]
    rcases h : splitOnChars sep tl with _ | ⟨x, y⟩
    · exact absurd h ih
    · by_cases hc : c = sep <;> simp [hc]

/-- The head surviving a `dropWhile` fails the predicate. -/
lemma dropWhile_head_false {α} (p : α → Bool) :
    ∀ (l : List α) (c : α) (r : List α), l.dropWhile p = c :: r →
      p c = false := by
  intro l
  induction l with
  | nil => intro c r h; exact absurd h (by simp)
  | cons a tl ih =>
    intro c r h
    by_cases hp : p a
    · rw [List.dropWhile_cons_of_pos hp] at h
      exact ih c r h
    · rw [List.dropWhile_cons_of_neg hp] at h
      injection h with h1 _
      subst h1
      simpa using hp

/-- The last character of a trimmed text is not whitespace. -/
lemma trimChars_getLast_not_ws (l : List Char) (c : Char)
    (h : (trimChars l).getLast? = some c) : isWsChar c = false := by
  unfold trimChars at h
  rw [List.getLast?_eq_head?_reverse, List.reverse_reverse] at h
  rcases hd : (l.dropWhile isWsChar).reverse.dropWhile isWsChar with _ | ⟨x, r⟩
  · rw [hd] at h
    exact absurd h (by simp)
  · rw [hd] at h
    obtain rfl : x = c := by simpa using h
    exact dropWhile_head_false isWsChar _ x r hd

/-- The last piece of a split contains the last character of the text,
provided that character is not the separator. -/
lemma mem_getLastD_splitOnChars (sep : Char) :
    ∀ (l : List Char) (c : Char), l.getLast? = some c → c ≠ sep →
      c ∈ (splitOnChars sep l).getLastD [] := by
  intro l
  induction l with
  | nil => intro c h _; exact absurd h (by simp)
  | cons a tl ih =>
    intro c h hc
    rcases htl : tl with _ | ⟨b, tl2⟩
    · subst htl
      obtain rfl : a = c := by simpa using h
      simp only [splitOnChars]
      rw [if_neg hc]
      simp
    · subst htl
      have hlast : (b :: tl2).getLast? = some c := by
        rw [← List.getLast?_cons_cons (a := a)]
        exact h
      have hmem := ih c hlast hc
      obtain ⟨hh, ht, heq⟩ : ∃ hh ht, splitOnChars sep (b :: tl2) = hh :: ht := by
        rcases hsp : splitOnChars sep (b :: tl2) with _ | ⟨x, y⟩
        · exact absurd hsp (splitOnChars_ne_nil sep _)
        · exact ⟨x, y, rfl⟩
      have hcons : splitOnChars sep (a :: b :: tl2) =
          match splitOnChars sep (b :: tl2) with
          | [] => [[]]
          | h :: t => if a = sep then [] :: h :: t else (a :: h) :: t := rfl
      rw [hcons, heq]
      show c ∈ (if a = sep then [] :: hh :: ht else (a :: hh) :: ht).getLastD []
      rw [heq] at hmem
      by_cases ha : a = sep
      · rw [if_pos ha]
        rw [List.getLastD_cons]
        exact hmem
      · rw [if_neg ha]
        rcases ht with _ | ⟨t1, ts⟩
        · rw [List.getLastD_cons] at hmem ⊢
          simp only [List.getLastD] at hmem ⊢
          exact List.mem_cons_of_mem a hmem
        · rw [List.getLastD_cons, List.getLastD_cons] at hmem ⊢
          exact hmem

/-- The legacy fallback of the extractor — the trailing line of the
trimmed output — is exactly the last non-blank line the spec speaks of. -/
lemma lastLineOf_eq_lastNonBlank (l : List Char) :
    lastLineOf l = lastNonBlankLineOf l := by
  unfold lastLineOf lastNonBlankLineOf
  rcases hg : (trimChars l).getLast? with _ | c
  · have ht : trimChars l = [] := List.getLast?_eq_none_iff.mp hg
    rw [ht]
    decide
  · have hws : isWsChar c = false := trimChars_getLast_not_ws l c hg
    have hcne : c ≠ '\n' := by
      intro hh
      rw [hh] at hws
      exact absurd hws (by decide)
    have hmem := mem_getLastD_splitOnChars '\n' (trimChars l) c hg hcne
    obtain ⟨piece, rest, hrev⟩ :
        ∃ p r, (splitOnChars '\n' (trimChars l)).reverse = p :: r := by
      rcases hs : (splitOnChars '\n' (trimChars l)).reverse with _ | ⟨p, r⟩
      · exact absurd (List.reverse_eq_nil_iff.mp hs)
          (splitOnChars_ne_nil '\n' _)
      · exact ⟨p, r, rfl⟩
    have h1 : (splitOnChars '\n' (trimChars l)).getLast? = some piece := by
      rw [List.getLast?_eq_head?_reverse, hrev]
      rfl
    have hpiece : (splitOnChars '\n' (trimChars l)).getLastD [] = piece := by
      rw [List.getLastD_eq_getLast?, h1]
      rfl
    rw [hpiece] at hmem
    have hnb : (!blankLine piece) = true := by
      have : blankLine piece = false := by
        unfold blankLine
        rw [List.all_eq_false]
        exact ⟨c, hmem, by simp [hws]⟩
      rw [this]
      rfl
    rw [hrev, List.find?_cons_of_pos rest hnb, hpiece]
    rfl

/-- `firstIdx` finds an occurrence: the pattern starts at the returned
index. -/
lemma firstIdx_occurrence (pat : List Char) :
    ∀ (l : List Char) (i : Nat), firstIdx pat l = some i →
      pat.isPrefixOf (l.drop i) = true := by
  intro l
  induction l with
  | nil =>
    intro i h
    by_cases hp : pat = []
    · simp only [firstIdx, if_pos hp] at h
      obtain rfl : (0 : Nat) = i := Option.some.inj h
      simp [hp]
    · simp [firstIdx, hp] at h
  | cons c tl ih =>
    intro i h
    simp only [firstIdx] at h
    by_cases hp : pat.isPrefixOf (c :: tl) = true
    · rw [if_pos hp] at h
      obtain rfl : (0 : Nat) = i := Option.some.inj h
      simpa using hp
    · rw [if_neg hp] at h
      rcases hf : firstIdx pat tl with _ | j
      · rw [hf] at h
        exact absurd h (by simp)
      · rw [hf] at h
        obtain rfl : j + 1 = i := by simpa using h
        rw [List.drop_succ_cons]
        exact ih j hf

/-- `firstIdx` finds the first occurrence: no earlier index starts the
pattern. -/
lemma firstIdx_minimal (pat : List Char) :
    ∀ (l : List Char) (i : Nat), firstIdx pat l = some i →
      ∀ j, j < i → pat.isPrefixOf (l.drop j) = false := by
  intro l
  induction l with
  | nil =>
    intro i h j hj
    by_cases hp : pat = []
    · simp only [firstIdx, if_pos hp] at h
      obtain rfl : (0 : Nat) = i := Option.some.inj h
      omega
    · simp [firstIdx, hp] at h
  | cons c tl ih =>
    intro i h j hj
    simp only [firstIdx] at h
    by_cases hp : pat.isPrefixOf (c :: tl) = true
    · rw [if_pos hp] at h
      obtain rfl : (0 : Nat) = i := Option.some.inj h
      omega
    · rw [if_neg hp] at h
      rcases hf : firstIdx pat tl with _ | k
      · rw [hf] at h
        exact absurd h (by simp)
      · rw [hf] at h
        obtain rfl : k + 1 = i := by simpa using h
        rcases j with _ | j2
        · simp only [Bool.not_eq_true] at hp
          simpa using hp
        · rw [List.drop_succ_cons]
          exact ih k hf j2 (by omega)

/-! ## Claim C4 -/

/-- Claim C4: candidate extraction follows the sentinel protocol — when
both sentinels occur (at their first occurrences, as computed by the
source via `indexOf`) with the end after the start, the candidate is the
trimmed text strictly between them, and otherwise it is the last
non-blank line of the trimmed output; `firstIdx` indeed returns the first
occurrence; and a candidate that parses successfully is returned as the
run result unchanged. -/
theorem extraction_protocol (stdout : List Char) :
    extractCandidate stdout = extractCandidateSpec stdout ∧
    (∀ pat i, firstIdx pat stdout = some i →
      pat.isPrefixOf (stdout.drop i) = true ∧
      ∀ j, j < i → pat.isPrefixOf (stdout.drop j) = false) ∧
    (∀ (group : RegisteredGroup) (input : ContainerInput) (env : ExecEnv)
      (out : ContainerOutput),
      env.timedOut = false → env.exitCode = 0 →
      (collectStream env.maxOutputSize env.stdoutChunks).text = stdout →
      env.parseJob (extractCandidate stdout) = Except.ok out →
      (runContainerAgent group input env).1 = out) := by
  refine ⟨?_, ?_, ?_⟩
  · have hll := lastLineOf_eq_lastNonBlank stdout
    rcases h1 : firstIdx OUTPUT_START_MARKER stdout with _ | si <;>
      rcases h2 : firstIdx OUTPUT_END_MARKER stdout with _ | ei <;>
        simp only [extractCandidate, extractCandidateSpec, h1, h2]
    · exact hll
    · exact hll
    · exact hll
    · by_cases h : si < ei
      · rw [if_pos h, if_pos h]
      · rw [if_neg h, if_neg h]
        exact hll
  · exact fun pat i h =>
      ⟨firstIdx_occurrence pat stdout i h, firstIdx_minimal pat stdout i h⟩
  · intro group input env out h1 h2 hcap hparse
    simp only [runContainerAgent, h1, Bool.false_eq_true, if_false,
      if_neg (by simp [h2] : ¬ env.exitCode ≠ 0), hcap, hparse]

/-- Witness for claim C4 at the one-character output "x": the two
extractors agree, the pattern is found at its occurrence, and a parsed
result is passed through. -/
theorem extraction_protocol_witness :
    extractCandidate "x".data = extractCandidateSpec "x".data ∧
    (['x'].isPrefixOf ("x".data.drop 0) = true) ∧
    (runContainerAgent (RegisteredGroup.mk "g" "beta" none)
      (ContainerInput.mk "p" none "beta" "jid" false "t" none)
      (ExecEnv.mk 600000 1048576 false 0 [['x']] []
        (fun _ => Except.ok (ContainerOutput.mk JobStatus.success
          (some "ok") none none)))).1 =
      ContainerOutput.mk JobStatus.success (some "ok") none none :=
  ⟨(extraction_protocol "x".data).1,
   ((extraction_protocol "x".data).2.1 ['x'] 0 (by decide)).1,
   (extraction_protocol "x".data).2.2
     (RegisteredGroup.mk "g" "beta" none)
     (ContainerInput.mk "p" none "beta" "jid" false "t" none)
     (ExecEnv.mk 600000 1048576 false 0 [['x']] []
       (fun _ => Except.ok (ContainerOutput.mk JobStatus.success
         (some "ok") none none)))
     (ContainerOutput.mk JobStatus.success (some "ok") none none)
     rfl rfl (by decide) rfl⟩

/-! ## Claim C3 -/

/-- Claim C3: when the timeout timer fires before the sandbox process
exits, the returned result is status=error with a message naming the
configured timeout value (the tenant override when present and nonzero,
else the system default), the process is killed, and no candidate is ever
handed to the extraction/parse step. -/
theorem runContainerAgent_timeout (group : RegisteredGroup)
    (input : ContainerInput) (env : ExecEnv) (h : env.timedOut = true) :
    (runContainerAgent group input env).1.status = JobStatus.error ∧
    (runContainerAgent group input env).1.error =
      some ("Container timed out after " ++
        toString (configuredTimeout group env) ++ "ms") ∧
    (runContainerAgent group input env).2.killed = true ∧
    (runContainerAgent group input env).2.parsedCandidate = none := by
  simp [runContainerAgent, h]

/-- Witness for claim C3 at a tenant whose configuration overrides the
timeout to 1234 ms: the message names the override, not the default. -/
theorem runContainerAgent_timeout_witness :
    (runContainerAgent
      (RegisteredGroup.mk "g" "beta" (some (ContainerConfig.mk (some 1234) none)))
      (ContainerInput.mk "p" none "beta" "jid" false "t" none)
      (ExecEnv.mk 600000 1048576 true 0 [] []
        (fun _ => Except.error "unused"))).1.error =
      some "Container timed out after 1234ms" ∧
    (runContainerAgent
      (RegisteredGroup.mk "g" "beta" (some (ContainerConfig.mk (some 1234) none)))
      (ContainerInput.mk "p" none "beta" "jid" false "t" none)
      (ExecEnv.mk 600000 1048576 true 0 [] []
        (fun _ => Except.error "unused"))).2.killed = true :=
  ⟨((runContainerAgent_timeout _ _ _ rfl).2.1).trans (by decide),
   (runContainerAgent_timeout
     (RegisteredGroup.mk "g" "beta" (some (ContainerConfig.mk (some 1234) none)))
     (ContainerInput.mk "p" none "beta" "jid" false "t" none)
     (ExecEnv.mk 600000 1048576 true 0 [] []
       (fun _ => Except.error "unused")) rfl).2.2.1⟩

/-! ## Claim C5 -/

/-- Claim C5: when the run did not time out, the process exited with code
zero, and the extracted candidate fails to parse, the caller receives
status=error with a non-empty message naming the parse failure, a bounded
(at most 500 character) tail of the raw captured output is logged for
diagnosis, and no exception escapes — the function still returns a
result value. -/
theorem runContainerAgent_parse_failure (group : RegisteredGroup)
    (input : ContainerInput) (env : ExecEnv) (msg : String)
    (h1 : env.timedOut = false) (h2 : env.exitCode = 0)
    (h3 : env.parseJob (extractCandidate
      (collectStream env.maxOutputSize env.stdoutChunks).text) =
      Except.error msg) :
    (runContainerAgent group input env).1.status = JobStatus.error ∧
    (runContainerAgent group input env).1.error =
      some ("Failed to parse container output: " ++ msg) ∧
    (∀ e, (runContainerAgent group input env).1.error = some e →
      0 < e.length) ∧
    (runContainerAgent group input env).2.loggedParseTail =
      some (sliceLast 500 (collectStream env.maxOutputSize
        env.stdoutChunks).text) ∧
    (∀ t, (runContainerAgent group input env).2.loggedParseTail = some t →
      t.length ≤ 500) := by
  have hrun : runContainerAgent group input env =
      (⟨JobStatus.error, none, none,
        some ("Failed to parse container output: " ++ msg)⟩,
       ⟨false, 1, some (extractCandidate
          (collectStream env.maxOutputSize env.stdoutChunks).text),
        some (sliceLast 500 (collectStream env.maxOutputSize
          env.stdoutChunks).text)⟩) := by
    simp [runContainerAgent, h1, h2, h3]
  rw [hrun]
  refine ⟨rfl, rfl, fun e he => ?_, rfl, fun t ht => ?_⟩
  · obtain rfl : ("Failed to parse container output: " ++ msg) = e :=
      Option.some.inj he
    rw [String.length_append]
    have : 0 < ("Failed to parse container output: " : String).length := by
      decide
    omega
  · obtain rfl : sliceLast 500 (collectStream env.maxOutputSize
        env.stdoutChunks).text = t := Option.some.inj ht
    simp only [sliceLast, List.length_drop]
    omega

/-- Witness for claim C5 with a parser that always fails. -/
theorem runContainerAgent_parse_failure_witness :
    (runContainerAgent (RegisteredGroup.mk "g" "beta" none)
      (ContainerInput.mk "p" none "beta" "jid" false "t" none)
      (ExecEnv.mk 600000 1048576 false 0 [['h', 'i']] []
        (fun _ => Except.error "Unexpected token"))).1.error =
      some "Failed to parse container output: Unexpected token" ∧
    (runContainerAgent (RegisteredGroup.mk "g" "beta" none)
      (ContainerInput.mk "p" none "beta" "jid" false "t" none)
      (ExecEnv.mk 600000 1048576 false 0 [['h', 'i']] []
        (fun _ => Except.error "Unexpected token"))).1.status =
      JobStatus.error :=
  ⟨(runContainerAgent_parse_failure (RegisteredGroup.mk "g" "beta" none)
      (ContainerInput.mk "p" none "beta" "jid" false "t" none)
      (ExecEnv.mk 600000 1048576 false 0 [['h', 'i']] []
        (fun _ => Except.error "Unexpected token"))
      "Unexpected token" rfl rfl rfl).2.1,
   (runContainerAgent_parse_failure (RegisteredGroup.mk "g" "beta" none)
      (ContainerInput.mk "p" none "beta" "jid" false "t" none)
      (ExecEnv.mk 600000 1048576 false 0 [['h', 'i']] []
        (fun _ => Except.error "Unexpected token"))
      "Unexpected token" rfl rfl rfl).1⟩

/-! ## Claim C8 -/

/-- Claim C8, counterexample: for a spawned invocation whose timeout
fires, the source returns the timeout result before the per-run log file
is written, so no RunRecord at all is written for that invocation —
contradicting "exactly one RunRecord ... including invocations that time
out". -/
theorem runRecord_timeout_counterexample :
    ¬ ((runContainerAgent (RegisteredGroup.mk "g" "beta" none)
      (ContainerInput.mk "p" none "beta" "jid" false "t" none)
      (ExecEnv.mk 600000 1048576 true 0 [] []
        (fun _ => Except.error "unused"))).2.logWrites = 1) := by
  have h : (runContainerAgent (RegisteredGroup.mk "g" "beta" none)
      (ContainerInput.mk "p" none "beta" "jid" false "t" none)
      (ExecEnv.mk 600000 1048576 true 0 [] []
        (fun _ => Except.error "unused"))).2.logWrites = 0 := rfl
  omega

/-- Claim C8 (amended): for every spawned invocation that does not time
out, exactly one RunRecord is written before the result is returned
(whatever the exit code and parse outcome); a timed-out invocation
returns without writing any RunRecord. -/
theorem runRecord_written_once (group : RegisteredGroup)
    (input : ContainerInput) (env : ExecEnv) :
    (env.timedOut = false →
      (runContainerAgent group input env).2.logWrites = 1) ∧
    (env.timedOut = true →
      (runContainerAgent group input env).2.logWrites = 0) := by
  constructor
  · intro h
    simp only [runContainerAgent, h, Bool.false_eq_true, if_false]
    by_cases hc : env.exitCode ≠ 0
    · rw [if_pos hc]
    · rw [if_neg hc]
      rcases henv : env.parseJob (extractCandidate
        (collectStream env.maxOutputSize env.stdoutChunks).text) with out | msg
      all_goals simp [henv]
  · intro h
    simp [runContainerAgent, h]

/-- Witness for the amended claim C8: one non-timed-out invocation writes
exactly one RunRecord, one timed-out invocation writes none. -/
theorem runRecord_written_once_witness :
    (runContainerAgent (RegisteredGroup.mk "g" "beta" none)
      (ContainerInput.mk "p" none "beta" "jid" false "t" none)
      (ExecEnv.mk 600000 1048576 false 3 [] []
        (fun _ => Except.error "unused"))).2.logWrites = 1 ∧
    (runContainerAgent (RegisteredGroup.mk "g" "beta" none)
      (ContainerInput.mk "p" none "beta" "jid" false "t" none)
      (ExecEnv.mk 600000 1048576 true 0 [] []
        (fun _ => Except.error "unused"))).2.logWrites = 0 :=
  ⟨(runRecord_written_once (RegisteredGroup.mk "g" "beta" none)
      (ContainerInput.mk "p" none "beta" "jid" false "t" none)
      (ExecEnv.mk 600000 1048576 false 3 [] []
        (fun _ => Except.error "unused"))).1 rfl,
   (runRecord_written_once (RegisteredGroup.mk "g" "beta" none)
      (ContainerInput.mk "p" none "beta" "jid" false "t" none)
      (ExecEnv.mk 600000 1048576 true 0 [] []
        (fun _ => Except.error "unused"))).2 rfl⟩

/-! ## Claim C1 -/

/-- Claim C1, counterexample: the claim quantifies over all possible
folder-name strings, but for the non-privileged tenants with folder names
"a/b" and "a" (distinct folder names), the mapping list computed by
`buildVolumeMounts` for the first contains a host path (its own IPC
directory, DATA_DIR/ipc/a/b) that is a descendant of the second tenant's
IPC directory DATA_DIR/ipc/a. -/
theorem buildVolumeMounts_isolation_counterexample :
    (RegisteredGroup.mk "G1" "a/b" none).folder ≠
      (RegisteredGroup.mk "G2" "a" none).folder ∧
    ∃ m ∈ buildVolumeMounts [] [] ["proj"] false
      (RegisteredGroup.mk "G1" "a/b" none) false,
      pathRelated m.hostPath
        (groupIpcDir (RegisteredGroup.mk "G2" "a" none).folder) := by
  constructor
  · decide
  · refine ⟨⟨["data", "ipc", "a", "b"], "/workspace/ipc", false⟩, by decide, ?_⟩
    exact Or.inr (Or.inr (by decide))

/-- Claim C1 (amended): for two non-privileged tenants whose folder names
are distinct single clean path components (nonempty, no separator, not a
dot component), and an allowlist none of whose entries is related to the
second tenant's session or IPC directory, every host path in the mapping
list computed by `buildVolumeMounts` for the first tenant is neither
equal to, nor an ancestor or descendant of, the second tenant's
session-state directory or IPC directory. -/
theorem buildVolumeMounts_isolation
    (allowlist : List AllowEntry) (sens : List (List String))
    (projectRoot : List String) (globalDirExists : Bool)
    (g1 g2 : RegisteredGroup) (m : VolumeMount)
    (h1 : cleanSeg g1.folder) (h2 : cleanSeg g2.folder)
    (hne : g1.folder ≠ g2.folder)
    (halw : ∀ e ∈ allowlist,
      ¬ pathRelated e.path (groupSessionsDir g2.folder) ∧
      ¬ pathRelated e.path (groupIpcDir g2.folder))
    (hm : m ∈ buildVolumeMounts allowlist sens projectRoot globalDirExists
      g1 false) :
    ¬ pathRelated m.hostPath (groupSessionsDir g2.folder) ∧
    ¬ pathRelated m.hostPath (groupIpcDir g2.folder) := by
  rw [groupSessionsDir_clean g2.folder h2, groupIpcDir_clean g2.folder h2]
    at halw ⊢
  have henv : pathJoin (DATA_DIR ++ ["env"]) = ["data", "env"] := by decide
  have hglobal : pathJoin (GROUPS_DIR ++ ["global"]) = ["groups", "global"] := by
    decide
  simp only [buildVolumeMounts, Bool.false_eq_true, if_false,
    groupSessionsDir_clean g1.folder h1, groupIpcDir_clean g1.folder h1,
    groupFolderMount_clean g1.folder h1, henv, hglobal,
    List.mem_append, List.mem_cons, List.not_mem_nil, or_false] at hm
  rcases hm with ((rfl | hmg) | (rfl | rfl | rfl)) | hm
  · exact ⟨not_pathRelated_of_head_ne (by decide),
      not_pathRelated_of_head_ne (by decide)⟩
  · rcases globalDirExists with _ | _
    · simp at hmg
    · simp at hmg
      subst hmg
      exact ⟨not_pathRelated_of_head_ne (by decide),
        not_pathRelated_of_head_ne (by decide)⟩
  · exact ⟨not_rel_diff_at ["data", "sessions"] g1.folder g2.folder
        [".claude"] [".claude"] hne,
      not_rel_diff_at ["data"] "sessions" "ipc" [g1.folder, ".claude"]
        [g2.folder] (by decide)⟩
  · exact ⟨not_rel_diff_at ["data"] "ipc" "sessions" [g1.folder]
        [g2.folder, ".claude"] (by decide),
      not_rel_diff_at ["data", "ipc"] g1.folder g2.folder [] [] hne⟩
  · exact ⟨not_rel_diff_at ["data"] "env" "sessions" []
        [g2.folder, ".claude"] (by decide),
      not_rel_diff_at ["data"] "env" "ipc" [] [g2.folder] (by decide)⟩
  · obtain ⟨e, he, hpre⟩ := mem_extraMounts hm
    exact ⟨not_rel_of_entry_unrel hpre (halw e he).1,
      not_rel_of_entry_unrel hpre (halw e he).2⟩

/-- Witness for the amended claim C1 at concrete tenants with folders
"alpha" and "beta" and an empty allowlist, instantiated at the session
mount of the first tenant. -/
theorem buildVolumeMounts_isolation_witness :
    ¬ pathRelated (VolumeMount.mk ["data", "sessions", "alpha", ".claude"]
        "/home/node/.claude" false).hostPath (groupSessionsDir "beta") ∧
    ¬ pathRelated (VolumeMount.mk ["data", "sessions", "alpha", ".claude"]
        "/home/node/.claude" false).hostPath (groupIpcDir "beta") :=
  buildVolumeMounts_isolation [] [] ["proj"] false
    (RegisteredGroup.mk "G1" "alpha" none)
    (RegisteredGroup.mk "G2" "beta" none) _
    (by decide) (by decide) (by decide) (by simp) (by decide)

/-! ## Claim C9 -/

/-- Claim C9, counterexample: the source performs no sandbox-path
collision detection.  A tenant-requested additional mount whose sandbox
path duplicates the tenant work directory passes the (spec-modelled)
validator, so the computed mapping list carries two mappings with the same
sandbox path, and the launcher arguments are still built with both — the
invocation proceeds rather than surfacing an error. -/
theorem collision_not_surfaced_counterexample :
    ¬ (((buildVolumeMounts [AllowEntry.mk ["extra"] false none] [] ["proj"]
        false
        (RegisteredGroup.mk "g" "beta" (some (ContainerConfig.mk none
          (some [VolumeMount.mk ["extra"] "/workspace/group" false]))))
        false).map (fun m => m.containerPath)).Nodup) ∧
    "groups/beta:/workspace/group" ∈ buildContainerArgs "img"
      (buildVolumeMounts [AllowEntry.mk ["extra"] false none] [] ["proj"]
        false
        (RegisteredGroup.mk "g" "beta" (some (ContainerConfig.mk none
          (some [VolumeMount.mk ["extra"] "/workspace/group" false]))))
        false) ∧
    "extra:/workspace/group" ∈ buildContainerArgs "img"
      (buildVolumeMounts [AllowEntry.mk ["extra"] false none] [] ["proj"]
        false
        (RegisteredGroup.mk "g" "beta" (some (ContainerConfig.mk none
          (some [VolumeMount.mk ["extra"] "/workspace/group" false]))))
        false) := by
  refine ⟨?_, by decide, by decide⟩
  decide

/-- Claim C9 (amended): `buildVolumeMounts` performs no sandbox-path
collision check; for a tenant that requests no additional mounts the
built-in mappings carry pairwise distinct sandbox paths, so no collision
arises, but validated additional mounts can silently duplicate a sandbox
path (see the counterexample). -/
theorem builtin_containerPaths_nodup
    (allowlist : List AllowEntry) (sens : List (List String))
    (projectRoot : List String) (globalDirExists : Bool)
    (g : RegisteredGroup) (isMain : Bool)
    (hcfg : g.containerConfig.bind (fun c => c.additionalMounts) = none) :
    ((buildVolumeMounts allowlist sens projectRoot globalDirExists g
      isMain).map (fun m => m.containerPath)).Nodup := by
  have hextra : extraMounts allowlist sens g isMain = [] :=
    extraMounts_eq_nil hcfg
  rcases isMain with _ | _ <;> rcases globalDirExists with _ | _ <;>
    simp [buildVolumeMounts, hextra]

/-- Witness for the amended claim C9 at a concrete tenant without
additional mount requests. -/
theorem builtin_containerPaths_nodup_witness :
    ((buildVolumeMounts [] [] ["proj"] false
      (RegisteredGroup.mk "g" "beta" none) false).map
      (fun m => m.containerPath)).Nodup :=
  builtin_containerPaths_nodup [] [] ["proj"] false
    (RegisteredGroup.mk "g" "beta" none) false rfl

end NanoClaw
